import Mathlib

/-!
Verification development for the multi-language static-analysis core
(`code_analyzer.rs`): a shallow embedding of its data model and operations
(language detection, syntax-tree traversal for counts and cyclomatic
complexity, line-based dependency extraction and issue detection, and the
derived metrics), together with theorems settling the specified properties.

Modelling conventions:
* Rust `usize` becomes `Nat`; counts never overflow in scope.
* `f64` is modelled by `F64`: an exact rational payload for finite values
  plus the IEEE-754 special values `inf`, `ninf`, `nan`.  Finite arithmetic
  is exact rational arithmetic (rounding is abstracted away — the verified
  properties depend only on special-value propagation, signs, and the final
  clamp, none of which are affected by rounding of the in-range values
  involved).  `f64::ln` is a transcendental and is therefore passed in as a
  parameter `fln`; theorems either hold for every `fln` or assume only the
  IEEE facts `ln 0 = -inf` / `ln n` finite for `n > 0`.
* Rust `str` values are Lean `String`s; `str::len` and the byte offsets
  returned by `str::find` are modelled by summing `Char.utf8Size`, matching
  Rust's UTF-8 byte counting (a substring match of valid UTF-8 always
  starts on a character boundary, so scanning character positions and
  converting to byte offsets agrees with Rust's byte-level `find`).
-/

namespace CodeAnalyzer

/-! ## IEEE f64 special-value model -/

/-- Model of an `f64` value: a finite rational payload or a special value. -/
inductive F64 where
  | fin (q : ℚ)
  | inf
  | ninf
  | nan
deriving DecidableEq

/-- IEEE negation. -/
def F64.neg : F64 → F64
  | .fin q => .fin (-q)
  | .inf => .ninf
  | .ninf => .inf
  | .nan => .nan

/-- IEEE addition on the special-value structure (finite payloads exact). -/
def F64.add : F64 → F64 → F64
  | .nan, _ => .nan
  | _, .nan => .nan
  | .fin a, .fin b => .fin (a + b)
  | .fin _, .inf => .inf
  | .inf, .fin _ => .inf
  | .fin _, .ninf => .ninf
  | .ninf, .fin _ => .ninf
  | .inf, .inf => .inf
  | .ninf, .ninf => .ninf
  | .inf, .ninf => .nan
  | .ninf, .inf => .nan

/-- IEEE subtraction: `a - b = a + (-b)`. -/
def F64.sub (a b : F64) : F64 := a.add b.neg

/-- IEEE multiplication on the special-value structure (finite payloads
exact; `0 * ±inf = nan`). -/
def F64.mul : F64 → F64 → F64
  | .nan, _ => .nan
  | _, .nan => .nan
  | .fin a, .fin b => .fin (a * b)
  | .fin a, .inf => if 0 < a then .inf else if a < 0 then .ninf else .nan
  | .inf, .fin b => if 0 < b then .inf else if b < 0 then .ninf else .nan
  | .fin a, .ninf => if 0 < a then .ninf else if a < 0 then .inf else .nan
  | .ninf, .fin b => if 0 < b then .ninf else if b < 0 then .inf else .nan
  | .inf, .inf => .inf
  | .ninf, .ninf => .inf
  | .inf, .ninf => .ninf
  | .ninf, .inf => .ninf

/-- Rust `f64::max`: if one argument is NaN, the other argument is
returned; otherwise the ordinary maximum. -/
def F64.rustMax : F64 → F64 → F64
  | .nan, b => b
  | a, .nan => a
  | .fin a, .fin b => .fin (max a b)
  | .inf, _ => .inf
  | _, .inf => .inf
  | .ninf, b => b
  | a, .ninf => a

/-- Rust `f64::min`: if one argument is NaN, the other argument is
returned; otherwise the ordinary minimum. -/
def F64.rustMin : F64 → F64 → F64
  | .nan, b => b
  | a, .nan => a
  | .fin a, .fin b => .fin (min a b)
  | .ninf, _ => .ninf
  | _, .ninf => .ninf
  | .inf, b => b
  | a, .inf => a

/-- Model of IEEE-754 `f64::ln` restricted to what the development uses:
`ln 0 = -inf`, and a finite placeholder for positive naturals (no theorem
depends on the finite payload — general theorems quantify over every `fln`
agreeing with IEEE on these special values). -/
def flnModel (n : ℕ) : F64 := if n = 0 then F64.ninf else F64.fin 0

/-! ## Rust string-primitive models (UTF-8 byte lengths, find, trim, lines) -/

/-- UTF-8 byte length of a character list: model of Rust `str::len`. -/
def utf8Len (cs : List Char) : ℕ := (cs.map Char.utf8Size).sum

/-- Whether the first list is a leading segment of the second. -/
def isPreOf : List Char → List Char → Bool
  | [], _ => true
  | _ :: _, [] => false
  | a :: as, b :: bs => a = b && isPreOf as bs

/-- First character position at which `pat` occurs, scanning left to
right (model of the search underlying Rust `str::find`). -/
def findSubAux (pat : List Char) : List Char → ℕ → Option ℕ
  | [], i => if isPreOf pat [] then some i else none
  | b :: bs, i => if isPreOf pat (b :: bs) then some i else findSubAux pat bs (i + 1)

/-- Character index of the first occurrence of `pat` in `s`. -/
def strFindIdx (s pat : String) : Option ℕ := findSubAux pat.toList s.toList 0

/-- Model of Rust `str::find(pat)`: byte offset of the first match. -/
def rustFind (s pat : String) : Option ℕ :=
  (strFindIdx s pat).map (fun i => utf8Len (s.toList.take i))

/-- Model of Rust `str::contains(pat)`. -/
def rustContains (s pat : String) : Bool := (strFindIdx s pat).isSome

/-- Model of Rust `str::starts_with(pat)`. -/
def rustStarts (s pat : String) : Bool := isPreOf pat.toList s.toList

/-- Model of Rust `str::trim` (drop whitespace at both ends). -/
def rustTrim (s : String) : String :=
  String.mk (((s.toList.dropWhile Char.isWhitespace).reverse.dropWhile Char.isWhitespace).reverse)

/-- Model of Rust `str::trim_matches(c)` (drop repeated `c` at both ends). -/
def trimMatchesChar (c : Char) (s : String) : String :=
  String.mk (((s.toList.dropWhile (· = c)).reverse.dropWhile (· = c)).reverse)

/-- Drop the first `n` characters (used to model byte slicing at a
character boundary, which Rust's in-bounds `&line[i..]` amounts to). -/
def sDrop (s : String) (n : ℕ) : String := String.mk (s.toList.drop n)

/-- Take the first `n` characters. -/
def sTake (s : String) (n : ℕ) : String := String.mk (s.toList.take n)

/-- Strip one trailing carriage return, as Rust `str::lines` does for
`\r\n` line endings. -/
def stripCR (l : List Char) : List Char :=
  if l.getLast? = some '\r' then l.dropLast else l

/-- Split at newline characters; segments that were terminated by a
newline get a trailing `\r` stripped; a final unterminated empty segment
is dropped. -/
def linesAux : List Char → List Char → List (List Char)
  | [], acc => if acc = [] then [] else [acc.reverse]
  | '\n' :: rest, acc => stripCR acc.reverse :: linesAux rest []
  | c :: rest, acc => linesAux rest (c :: acc)

/-- Model of Rust `str::lines`. -/
def rustLines (s : String) : List String := (linesAux s.toList []).map String.mk

/-- Model of Rust `str::split_whitespace().next()`: the first maximal
non-whitespace token, if any. -/
def splitWhitespaceNext (s : String) : Option String :=
  let rest := s.toList.dropWhile Char.isWhitespace
  if rest = [] then none else some (String.mk (rest.takeWhile (fun c => !c.isWhitespace)))

/-- Lexicographic order on character lists, the order Rust's `Ord` for
`String` induces (bytewise comparison of UTF-8 agrees with comparison of
code points). -/
def charListLe : List Char → List Char → Bool
  | [], _ => true
  | _ :: _, [] => false
  | a :: as, b :: bs => if a = b then charListLe as bs else decide (a < b)

/-- The string comparison used by `Vec::<String>::sort`. -/
def strLe (a b : String) : Bool := charListLe a.toList b.toList

/-- Model of Rust `s.split(sep).next()` for a non-empty separator: the
text before the first occurrence of `sep` (the whole string if absent). -/
def splitFirst (s sep : String) : String :=
  match strFindIdx s sep with
  | some i => sTake s i
  | none => s

/-! ## Syntax trees and the traversals over them -/

/-- Tree-sitter concrete syntax tree, as the analyzer observes it: a node
kind (the grammar's name for the node) and the child subtrees. -/
inductive STree where
  | node (kind : String) (children : List STree)

/-- Complexity weight of one node kind: the `match cursor.node().kind()`
of `complexity_recursive` (the same table is applied whatever the
language argument is, exactly as in the source). -/
def nodeWeight (kind : String) : ℚ :=
  if kind = "if_expression" || kind = "if_let_expression" || kind = "match_expression" then 1
  else if kind = "while_expression" || kind = "for_expression" || kind = "loop_expression" then 2
  else if kind = "if_statement" || kind = "while_statement" || kind = "for_statement" then 1
  else if kind = "switch_statement" || kind = "try_statement" then 1
  else 0

mutual

/-- `complexity_recursive`: weight of this node plus the contributions of
every node in each child subtree. -/
def complexityNode (language : String) : STree → ℚ
  | .node k cs => nodeWeight k + complexityList language cs

/-- Contribution of a list of sibling subtrees. -/
def complexityList (language : String) : List STree → ℚ
  | [] => 0
  | t :: ts => complexityNode language t + complexityList language ts

end

/-- `calculate_complexity`: base complexity 1 plus the recursive sum. -/
def calculate_complexity (t : STree) (language : String) : ℚ :=
  1 + complexityNode language t

/-- The node kind counted as a function declaration per language (`none`
models the `_ => return 0` arm for unregistered languages). -/
def functionKindFor (language : String) : Option String :=
  if language = "rust" then some "function_item"
  else if language = "javascript" || language = "typescript" then some "function_declaration"
  else if language = "python" then some "function_definition"
  else none

/-- The node kind counted as a struct/class declaration per language. -/
def structKindFor (language : String) : Option String :=
  if language = "rust" then some "struct_item"
  else if language = "javascript" || language = "typescript" then some "class_declaration"
  else if language = "python" then some "class_definition"
  else none

mutual

/-- Number of nodes of kind `tk` in a subtree. -/
def countKindNode (tk : String) : STree → ℕ
  | .node k cs => (if k = tk then 1 else 0) + countKindList tk cs

/-- Number of nodes of kind `tk` in a list of sibling subtrees. -/
def countKindList (tk : String) : List STree → ℕ
  | [] => 0
  | t :: ts => countKindNode tk t + countKindList tk ts

end

/-- `count_functions`. -/
def count_functions (t : STree) (language : String) : ℕ :=
  match functionKindFor language with
  | some tk => countKindNode tk t
  | none => 0

/-- `count_structs`. -/
def count_structs (t : STree) (language : String) : ℕ :=
  match structKindFor language with
  | some tk => countKindNode tk t
  | none => 0

mutual

/-- Number of nodes in a subtree whose kind satisfies `p` (used to state
the weighted-count characterisation of the complexity traversal). -/
def countPNode (p : String → Bool) : STree → ℕ
  | .node k cs => (if p k then 1 else 0) + countPList p cs

/-- Number of nodes satisfying `p` across sibling subtrees. -/
def countPList (p : String → Bool) : List STree → ℕ
  | [] => 0
  | t :: ts => countPNode p t + countPList p ts

end

/-- Kinds the complexity table weighs 2 (the heavy, loop-expression row). -/
def isHeavyKind (kind : String) : Bool :=
  kind = "while_expression" || kind = "for_expression" || kind = "loop_expression"

/-- Kinds the complexity table weighs 1. -/
def isLightKind (kind : String) : Bool :=
  kind = "if_expression" || kind = "if_let_expression" || kind = "match_expression" ||
  kind = "if_statement" || kind = "while_statement" || kind = "for_statement" ||
  kind = "switch_statement" || kind = "try_statement"

/-- Modelled from the spec: the external tree-sitter grammars are
error-tolerant and always produce a tree; on empty input that tree is a
bare root node (grammar start symbol) with no children. -/
def emptyTree (language : String) : STree :=
  if language = "rust" then .node "source_file" []
  else if language = "javascript" || language = "typescript" then .node "program" []
  else .node "module" []

/-! ## Dependency extraction -/

/-- The dependency a Rust `use` line contributes, if any: the text before
the first `::` of the trimmed line after `use `, excluded when it starts
with `crate`, `super` or `self`. -/
def rustDepOfLine (line : String) : Option String :=
  let t := rustTrim line
  if rustStarts t "use " then
    let dep := splitFirst (sDrop t 4) "::"
    if rustStarts dep "crate" || rustStarts dep "super" || rustStarts dep "self" then none
    else some dep
  else none

/-- The dependency a JavaScript/TypeScript line contributes, if any: the
quoted module after ` from ` on an `import ` line, or the argument of
`require(` on a `const ` line, excluded when it starts with `.`. -/
def jsDepOfLine (line : String) : Option String :=
  if rustStarts (rustTrim line) "import " then
    match strFindIdx line " from " with
    | some fromPos =>
      let dep := trimMatchesChar '\x27' (trimMatchesChar '"' (rustTrim (sDrop line (fromPos + 6))))
      if rustStarts dep "." then none else some dep
    | none => none
  else if rustStarts (rustTrim line) "const " && rustContains line "require(" then
    match strFindIdx line "require(" with
    | some start =>
      match strFindIdx (sDrop line start) ")" with
      | some stop =>
        let dep := trimMatchesChar '\x27' (trimMatchesChar '"' (rustTrim (sTake (sDrop line (start + 8)) (stop - 8))))
        if rustStarts dep "." then none else some dep
      | none => none
    | none => none
  else none

/-- The dependency a Python line contributes, if any: the first
whitespace token after `import ` or after `from `. -/
def pyDepOfLine (line : String) : Option String :=
  let t := rustTrim line
  if rustStarts t "import " then splitWhitespaceNext (sDrop t 7)
  else if rustStarts t "from " then splitWhitespaceNext (sDrop t 5)
  else none

/-- Model of `Vec::dedup`: remove consecutive duplicates. -/
def rustDedup : List String → List String
  | [] => []
  | [a] => [a]
  | a :: b :: rest => if a = b then rustDedup (b :: rest) else a :: rustDedup (b :: rest)

/-- `extract_dependencies`: collect the per-line matches for the
language, then sort ascending (`Vec::sort`) and remove duplicates
(`Vec::dedup`; on a sorted list this removes every duplicate). -/
def extract_dependencies (content language : String) : List String :=
  let deps : List String :=
    if language = "rust" then (rustLines content).filterMap rustDepOfLine
    else if language = "javascript" || language = "typescript" then
      (rustLines content).filterMap jsDepOfLine
    else if language = "python" then (rustLines content).filterMap pyDepOfLine
    else []
  rustDedup (List.insertionSort (fun a b => strLe a b = true) deps)

/-! ## Issue detection -/

/-- A reported issue. -/
structure CodeIssue where
  severity : String
  message : String
  line : Option ℕ
  column : Option ℕ
deriving DecidableEq

/-- Message of the long-line warning for a line of `n` bytes. -/
def mkLongMsg (n : ℕ) : String := "Line too long (" ++ Nat.repr n ++ " characters)"

/-- Message of the Rust unchecked-unwrap warning. -/
def unwrapMsg : String := "Consider using proper error handling instead of unwrap()"

/-- Message of the JavaScript/TypeScript console.log advisory. -/
def consoleMsg : String := "Consider removing console.log in production code"

/-- Message of the Python print advisory. -/
def printMsg : String := "Consider using logging instead of print"

/-- The long-line loop of `find_issues`: one warning per line whose byte
length exceeds 100, at 1-based line `i + 1` and column 100. -/
def lineLengthIssuesAux : ℕ → List String → List CodeIssue
  | _, [] => []
  | i, l :: ls =>
    (if 100 < utf8Len l.toList then
      [⟨"warning", mkLongMsg (utf8Len l.toList), some (i + 1), some 100⟩]
    else []) ++ lineLengthIssuesAux (i + 1) ls

/-- The Rust-specific loop: one warning per line containing `.unwrap()`,
at the byte column of the first match on that line. -/
def unwrapIssuesAux : ℕ → List String → List CodeIssue
  | _, [] => []
  | i, l :: ls =>
    (if rustContains l ".unwrap()" then
      [⟨"warning", unwrapMsg, some (i + 1), rustFind l ".unwrap()"⟩]
    else []) ++ unwrapIssuesAux (i + 1) ls

/-- The JavaScript/TypeScript-specific loop: one info per line containing
`console.log`. -/
def consoleIssuesAux : ℕ → List String → List CodeIssue
  | _, [] => []
  | i, l :: ls =>
    (if rustContains l "console.log" then
      [⟨"info", consoleMsg, some (i + 1), rustFind l "console.log"⟩]
    else []) ++ consoleIssuesAux (i + 1) ls

/-- The Python-specific loop: one info per line whose trimmed text starts
with `print(`, with the column of `print(` in the untrimmed line. -/
def printIssuesAux : ℕ → List String → List CodeIssue
  | _, [] => []
  | i, l :: ls =>
    (if rustStarts (rustTrim l) "print(" then
      [⟨"info", printMsg, some (i + 1), rustFind l "print("⟩]
    else []) ++ printIssuesAux (i + 1) ls

/-- The long-line issues of a file. -/
def lineLengthIssues (content : String) : List CodeIssue :=
  lineLengthIssuesAux 0 (rustLines content)

/-- The language-specific anti-pattern issues of a file. -/
def antiPatternIssues (content language : String) : List CodeIssue :=
  if language = "rust" then unwrapIssuesAux 0 (rustLines content)
  else if language = "javascript" || language = "typescript" then
    consoleIssuesAux 0 (rustLines content)
  else if language = "python" then printIssuesAux 0 (rustLines content)
  else []

/-- `find_issues`: the long-line pass followed by the language-specific
pass, in the order the source pushes them. -/
def find_issues (content language : String) : List CodeIssue :=
  lineLengthIssues content ++ antiPatternIssues content language

/-! ## Metrics -/

/-- Whether a line counts as a comment line for the language. -/
def commentLine (language : String) (l : String) : Bool :=
  let t := rustTrim l
  if language = "rust" then rustStarts t "//" || rustStarts t "///"
  else if language = "javascript" || language = "typescript" then rustStarts t "//"
  else if language = "python" then rustStarts t "#"
  else false

/-- The clamp `maintainability_index.max(0.0).min(100.0)` applied to the
raw formula value. -/
def clampIndex (v : F64) : F64 := (v.rustMax (.fin 0)).rustMin (.fin 100)

/-- The maintainability-index formula exactly as written in the source,
left-associated: `171.0 - 5.2*ln(loc) - 0.23*cx + 16.2*ln(loc)`, with
`fln` the model of `f64::ln` on the cast of `lines_of_code`. -/
def maintainabilityRaw (fln : ℕ → F64) (loc cx : ℕ) : F64 :=
  (((F64.fin 171).sub ((F64.fin (26/5)).mul (fln loc))).sub
      ((F64.fin (23/100)).mul (F64.fin cx))).add
    ((F64.fin (81/5)).mul (fln loc))

/-- The maintainability index as reported: the raw formula clamped. -/
def maintainability_index (fln : ℕ → F64) (loc cx : ℕ) : F64 :=
  clampIndex (maintainabilityRaw fln loc cx)

/-- The metrics record. -/
structure CodeMetrics where
  cyclomatic_complexity : ℕ
  lines_of_code : ℕ
  comment_ratio : ℚ
  maintainability_index : F64
deriving DecidableEq

/-- `calculate_metrics`: comment counting over raw lines, the complexity
traversal truncated to an integer (`as usize`), and the maintainability
formula over `lines_of_code = total_lines - comment_lines`. -/
def calculate_metrics (fln : ℕ → F64) (content : String) (t : STree)
    (language : String) : CodeMetrics :=
  let lines := rustLines content
  let total_lines := lines.length
  let comment_lines := (lines.filter (commentLine language)).length
  let comment_ratio : ℚ :=
    if 0 < total_lines then (comment_lines : ℚ) / (total_lines : ℚ) else 0
  let cyclomatic_complexity : ℕ := (calculate_complexity t language).floor.toNat
  let lines_of_code := total_lines - comment_lines
  { cyclomatic_complexity := cyclomatic_complexity,
    lines_of_code := lines_of_code,
    comment_ratio := comment_ratio,
    maintainability_index := maintainability_index fln lines_of_code cyclomatic_complexity }

/-! ## Language detection and the analyze entry point -/

/-- Split a character list at a separator character. -/
def splitOnCharAux (sep : Char) : List Char → List Char → List (List Char)
  | [], acc => [acc.reverse]
  | c :: rest, acc =>
    if c = sep then acc.reverse :: splitOnCharAux sep rest []
    else splitOnCharAux sep rest (c :: acc)

/-- Model of `Path::file_name`: the last real path component (empty and
`.` components are skipped), with the `..` component yielding no file
name. -/
def pathFileName (p : String) : Option String :=
  match (((splitOnCharAux '/' p.toList []).map String.mk).filter
      (fun c => c ≠ "" && c ≠ ".")).getLast? with
  | none => none
  | some c => if c = ".." then none else some c

/-- Index of the last occurrence of `.` in a character list, if any. -/
def lastDotIdxAux : List Char → ℕ → Option ℕ → Option ℕ
  | [], _, acc => acc
  | c :: rest, i, acc => lastDotIdxAux rest (i + 1) (if c = '.' then some i else acc)

/-- Index of the last `.` in a character list, if any. -/
def lastDotIdx (cs : List Char) : Option ℕ := lastDotIdxAux cs 0 none

/-- Model of `Path::extension`: the portion of the file name after its
final `.`, unless there is no `.` or the file name begins with its only
`.` (then there is no extension). -/
def pathExtension (p : String) : Option String :=
  match pathFileName p with
  | none => none
  | some f =>
    match lastDotIdx f.toList with
    | none => none
    | some 0 => none
    | some (i + 1) => some (String.mk (f.toList.drop (i + 2)))

/-- `detect_language`: extension-to-language mapping. -/
def detect_language (file_path : String) : String :=
  match pathExtension file_path with
  | some e =>
    if e = "rs" then "rust"
    else if e = "js" || e = "mjs" then "javascript"
    else if e = "ts" then "typescript"
    else if e = "py" then "python"
    else "unknown"
  | none => "unknown"

/-- The analysis result record. -/
structure CodeAnalysisResult where
  file_path : String
  language : String
  line_count : ℕ
  function_count : ℕ
  struct_count : ℕ
  complexity_score : ℚ
  dependencies : List String
  issues : List CodeIssue
  metrics : CodeMetrics
deriving DecidableEq

/-- Whether the language has a registered parser in `analyze_file`. -/
def hasParserFor (language : String) : Bool :=
  language = "rust" || language = "javascript" || language = "typescript" ||
  language = "python"

/-- `analyze_file`, with the file read lifted to the `content` argument
and the external tree-sitter parser lifted to the `parse` argument
(language, then content): resolve the language (hint, else extension),
fail on an unregistered language, fail when no tree is produced, and
otherwise assemble the result from the traversals and line passes. -/
def analyze_file (fln : ℕ → F64) (parse : String → String → Option STree)
    (file_path content : String) (language : Option String) :
    Except String CodeAnalysisResult :=
  let detected := match language with | some l => l | none => detect_language file_path
  if hasParserFor detected then
    match parse detected content with
    | none => .error "Failed to parse code"
    | some tree =>
      .ok { file_path := file_path
            language := detected
            line_count := (rustLines content).length
            function_count := count_functions tree detected
            struct_count := count_structs tree detected
            complexity_score := calculate_complexity tree detected
            dependencies := extract_dependencies content detected
            issues := find_issues content detected
            metrics := calculate_metrics fln content tree detected }
  else .error ("Unsupported language: " ++ detected)

/-- The four language names with a registered parser. -/
def supportedLanguages : List String := ["rust", "javascript", "typescript", "python"]

/-- First character of a string, used to separate the fixed issue
messages from each other. -/
def headChar (s : String) : Option Char := s.toList.head?

/-- The result of analyzing an empty `.rs` file (used as a concrete
witness value). -/
def emptyRustResult : CodeAnalysisResult :=
  { file_path := "main.rs", language := "rust", line_count := 0, function_count := 0,
    struct_count := 0, complexity_score := 1, dependencies := [], issues := [],
    metrics := { cyclomatic_complexity := 1, lines_of_code := 0, comment_ratio := 0,
                 maintainability_index := F64.fin 0 } }

/-! ## Helper lemmas: the complexity traversal as a weighted node count -/

theorem nodeWeight_eq_light_heavy (k : String) :
    nodeWeight k = (if isLightKind k then 1 else 0) + 2 * (if isHeavyKind k then 1 else 0) := by
  simp only [nodeWeight, isLightKind, isHeavyKind, Bool.or_eq_true, decide_eq_true_eq]
  split_ifs <;> simp_all <;> casesm* _ ∨ _ <;> simp_all

theorem complexity_eq_weighted (language : String) (t : STree) :
    complexityNode language t =
      (countPNode isLightKind t : ℚ) + 2 * (countPNode isHeavyKind t : ℚ) := by
  refine STree.rec
    (motive_1 := fun t => complexityNode language t =
      (countPNode isLightKind t : ℚ) + 2 * (countPNode isHeavyKind t : ℚ))
    (motive_2 := fun ts => complexityList language ts =
      (countPList isLightKind ts : ℚ) + 2 * (countPList isHeavyKind ts : ℚ))
    ?_ ?_ ?_ t
  · intro k cs ih
    simp only [complexityNode, countPNode, ih, nodeWeight_eq_light_heavy k]
    push_cast
    ring
  · simp [complexityList, countPList]
  · intro t ts iht ihts
    simp only [complexityList, countPList, iht, ihts]
    push_cast
    ring

theorem complexityNode_natCast (language : String) (t : STree) :
    ∃ n : ℕ, complexityNode language t = (n : ℚ) := by
  refine ⟨countPNode isLightKind t + 2 * countPNode isHeavyKind t, ?_⟩
  rw [complexity_eq_weighted]
  push_cast
  ring

/-! ## Claim C1 -/

/-- C1: the claim predicts that a JavaScript `while_statement` weighs 2,
so a program whose only classified node is one `while_statement` would
have cyclomatic complexity 1 + 2 = 3; the code computes 2, because
`while_statement`/`for_statement` sit in the weight-1 arm of the match. -/
theorem c1_counterexample :
    calculate_complexity (.node "program" [.node "while_statement" []]) "javascript" = 2 ∧
    calculate_complexity (.node "program" [.node "while_statement" []]) "javascript" ≠
      1 + 2 * 1 := by
  constructor
  · simp +decide [calculate_complexity, complexityNode, complexityList, nodeWeight]
    norm_num
  · simp +decide [calculate_complexity, complexityNode, complexityList, nodeWeight]

/-- C1 (amended): cyclomatic complexity is 1 plus the weighted node
count, where for every language the JS/TS `while_statement` and
`for_statement` kinds carry weight 1 (they are classified with the
light, weight-1 kinds) and only `while_expression` / `for_expression` /
`loop_expression` carry weight 2. -/
theorem c1_amended :
    (∀ (language : String) (t : STree),
      calculate_complexity t language =
        1 + (countPNode isLightKind t : ℚ) + 2 * (countPNode isHeavyKind t : ℚ)) ∧
    isLightKind "while_statement" = true ∧ isLightKind "for_statement" = true ∧
    isHeavyKind "while_statement" = false ∧ isHeavyKind "for_statement" = false := by
  refine ⟨fun language t => ?_, by decide, by decide, by decide, by decide⟩
  rw [calculate_complexity, complexity_eq_weighted]
  ring

/-! ## Claim C4 -/

theorem clampIndex_bounds (v : F64) :
    ∃ q : ℚ, clampIndex v = .fin q ∧ 0 ≤ q ∧ q ≤ 100 := by
  cases v with
  | fin q =>
    exact ⟨min (max q 0) 100, rfl, le_min (le_max_right q 0) (by norm_num), min_le_right _ _⟩
  | inf => exact ⟨100, rfl, by norm_num, by norm_num⟩
  | ninf => exact ⟨min 0 100, rfl, by norm_num, by norm_num⟩
  | nan => exact ⟨min 0 100, rfl, by norm_num, by norm_num⟩

/-- C4: whatever value (finite, infinite or NaN) the raw
maintainability formula takes — hence for every model of `ln`, every
lines-of-code value and every complexity value — the reported
maintainability index is a finite rational in [0,100]; likewise for the
index computed by `calculate_metrics` on any input. -/
theorem c4_maintainability_clamped :
    (∀ (fln : ℕ → F64) (loc cx : ℕ),
      ∃ q : ℚ, maintainability_index fln loc cx = .fin q ∧ 0 ≤ q ∧ q ≤ 100) ∧
    (∀ (fln : ℕ → F64) (content : String) (t : STree) (language : String),
      ∃ q : ℚ, (calculate_metrics fln content t language).maintainability_index = .fin q ∧
        0 ≤ q ∧ q ≤ 100) := by
  constructor
  · intro fln loc cx
    exact clampIndex_bounds _
  · intro fln content t language
    exact clampIndex_bounds _

/-! ## Claim C2 -/

/-- C2: on the empty file (lines of code 0, cyclomatic complexity 1)
the reported maintainability index is 0, whereas the claim's value —
the clamp of 171 − 0.23·complexity with the ln terms vanishing — is
100: the code performs no `max(LOC, 1)` substitution; instead
`ln 0 = -inf` drives the formula to NaN, and the `max(0)/min(100)`
clamp maps NaN to 0. -/
theorem c2_counterexample :
    (calculate_metrics flnModel "" (emptyTree "rust") "rust").maintainability_index =
      F64.fin 0 ∧
    (calculate_metrics flnModel "" (emptyTree "rust") "rust").cyclomatic_complexity = 1 ∧
    clampIndex (F64.fin (171 - 23 / 100 * 1)) = F64.fin 100 ∧
    F64.fin (0 : ℚ) ≠ F64.fin (100 : ℚ) := by
  refine ⟨?_, ?_, ?_, by decide⟩
  · norm_num [calculate_metrics, rustLines, linesAux, maintainability_index, maintainabilityRaw,
      flnModel, clampIndex, F64.sub, F64.neg, F64.add, F64.mul, F64.rustMax, F64.rustMin]
  · simp +decide [calculate_metrics, rustLines, linesAux, calculate_complexity, complexityNode,
      complexityList, nodeWeight, emptyTree]
  · norm_num [clampIndex, F64.rustMax, F64.rustMin]

theorem maintainability_at_zero (fln : ℕ → F64) (hln : fln 0 = F64.ninf) (cx : ℕ) :
    maintainability_index fln 0 cx = F64.fin 0 := by
  norm_num [maintainability_index, maintainabilityRaw, hln, clampIndex, F64.sub, F64.neg,
    F64.add, F64.mul, F64.rustMax, F64.rustMin]

/-- C2 (amended): the code does not replace LOC by max(LOC, 1).  For an
empty or all-comment file (every line a comment line, so
lines_of_code = 0) and any `ln` model with the IEEE value
`ln 0 = -inf`, the formula evaluates to NaN internally and the
max/min clamp (which ignores a NaN argument) makes the reported
maintainability index exactly 0 — a finite value, but not the claim's
clamp of 171 − 0.23·complexity. -/
theorem c2_amended (fln : ℕ → F64) (hln : fln 0 = F64.ninf) (content : String) (t : STree)
    (language : String)
    (hall : ((rustLines content).filter (commentLine language)).length =
      (rustLines content).length) :
    (calculate_metrics fln content t language).maintainability_index = F64.fin 0 := by
  have hloc : (rustLines content).length -
      ((rustLines content).filter (commentLine language)).length = 0 := by
    rw [hall, Nat.sub_self]
  simp only [calculate_metrics, hloc]
  exact maintainability_at_zero fln hln _

/-- Witness for C2 (amended): an all-comment one-line Rust file under
the concrete `ln` model. -/
theorem c2_amended_witness :
    (calculate_metrics flnModel "// only a comment" (emptyTree "rust") "rust").maintainability_index
      = F64.fin 0 :=
  c2_amended flnModel rfl "// only a comment" (emptyTree "rust") "rust" (by decide)

/-! ## Claim C3 -/

theorem analyze_empty_eq (fln : ℕ → F64) (parse : String → String → Option STree)
    (language : String) (hmem : language ∈ supportedLanguages)
    (hparse : parse language "" = some (emptyTree language)) (file_path : String) :
    analyze_file fln parse file_path "" (some language) =
      .ok { file_path := file_path, language := language, line_count := 0, function_count := 0,
            struct_count := 0, complexity_score := 1, dependencies := [], issues := [],
            metrics := { cyclomatic_complexity := 1, lines_of_code := 0, comment_ratio := 0,
                         maintainability_index := maintainability_index fln 0 1 } } := by
  simp only [supportedLanguages, List.mem_cons, List.not_mem_nil, or_false] at hmem
  rcases hmem with h | h | h | h <;> subst h <;>
    simp +decide [analyze_file, hasParserFor, hparse, emptyTree, calculate_complexity,
      complexityNode, complexityList, nodeWeight, count_functions, count_structs,
      functionKindFor, structKindFor, countKindNode, countKindList, extract_dependencies,
      rustLines, linesAux, rustDedup, find_issues, lineLengthIssues, antiPatternIssues,
      lineLengthIssuesAux, unwrapIssuesAux, consoleIssuesAux, printIssuesAux, calculate_metrics,
      show (Rat.floor 1).toNat = 1 from by decide]

/-- C3: for every supported language and every parse of the empty file
(a childless root node, as the grammars produce), a successful analysis
of empty content reports complexity_score 1, no functions, no structs,
zero lines of code, and a finite maintainability index in [0,100]
(given only the IEEE value `ln 0 = -inf`, no NaN escapes). -/
theorem c3_empty_analysis (fln : ℕ → F64) (hln : fln 0 = F64.ninf) (language : String)
    (hmem : language ∈ supportedLanguages) (parse : String → String → Option STree)
    (hparse : parse language "" = some (emptyTree language)) (file_path : String)
    (r : CodeAnalysisResult)
    (hok : analyze_file fln parse file_path "" (some language) = .ok r) :
    r.complexity_score = 1 ∧ r.function_count = 0 ∧ r.struct_count = 0 ∧
    r.metrics.lines_of_code = 0 ∧
    ∃ q : ℚ, r.metrics.maintainability_index = F64.fin q ∧ 0 ≤ q ∧ q ≤ 100 := by
  rw [analyze_empty_eq fln parse language hmem hparse file_path] at hok
  injection hok with h
  subst h
  exact ⟨rfl, rfl, rfl, rfl, 0, maintainability_at_zero fln hln 1, le_refl 0, by norm_num⟩

/-- Witness for C3: the empty `.rs` file, analyzed with the concrete
`ln` model and a parse function returning the empty tree. -/
theorem c3_empty_analysis_witness :
    analyze_file flnModel (fun l _ => some (emptyTree l)) "main.rs" "" (some "rust") =
      .ok emptyRustResult ∧
    emptyRustResult.complexity_score = 1 ∧ emptyRustResult.function_count = 0 ∧
    emptyRustResult.struct_count = 0 ∧ emptyRustResult.metrics.lines_of_code = 0 ∧
    ∃ q : ℚ, emptyRustResult.metrics.maintainability_index = F64.fin q ∧ 0 ≤ q ∧ q ≤ 100 := by
  have hok : analyze_file flnModel (fun l _ => some (emptyTree l)) "main.rs" "" (some "rust") =
      .ok emptyRustResult := by
    rw [analyze_empty_eq flnModel _ "rust" (by decide) rfl "main.rs"]
    simp [emptyRustResult, maintainability_at_zero flnModel rfl 1]
  have h := c3_empty_analysis flnModel rfl "rust" (by decide) (fun l _ => some (emptyTree l))
    rfl "main.rs" emptyRustResult hok
  exact ⟨hok, h.1, h.2.1, h.2.2.1, h.2.2.2.1, h.2.2.2.2⟩

/-! ## Claim C5 -/

theorem charListLe_iff : ∀ as bs : List Char, charListLe as bs = true ↔ ¬ List.Lex (· < ·) bs as
  | [], bs => iff_of_true rfl (List.Lex.not_nil_right _ _)
  | a :: as, [] =>
    iff_of_false (by simp [charListLe]) (fun h => h List.Lex.nil)
  | a :: as, b :: bs => by
    by_cases hab : a = b
    · subst hab
      simp only [charListLe, eq_self_iff_true, if_true]
      rw [charListLe_iff as bs]
      constructor
      · intro h hlex
        cases hlex with
        | cons h2 => exact h h2
        | rel h2 => exact lt_irrefl a h2
      · intro h h2
        exact h (List.Lex.cons h2)
    · simp only [charListLe, if_neg hab]
      constructor
      · intro h hlex
        have hlt : a < b := of_decide_eq_true h
        cases hlex with
        | cons h2 => exact hab rfl
        | rel h2 => exact lt_asymm hlt h2
      · intro h
        rcases lt_trichotomy a b with hlt | heq | hgt
        · exact decide_eq_true hlt
        · exact absurd heq hab
        · exact absurd (List.Lex.rel hgt) h

theorem strLe_iff (a b : String) : strLe a b = true ↔ a ≤ b := by
  rw [strLe, charListLe_iff, String.le_iff_toList_le, ← not_lt]
  exact Iff.rfl

theorem rustDedup_mem : ∀ (l : List String) (x : String), x ∈ rustDedup l → x ∈ l
  | [], x, h => by simp [rustDedup] at h
  | [a], x, h => by simpa [rustDedup] using h
  | a :: b :: rest, x, h => by
    by_cases hab : a = b
    · simp only [rustDedup, if_pos hab] at h
      exact List.mem_cons_of_mem a (rustDedup_mem (b :: rest) x h)
    · simp only [rustDedup, if_neg hab] at h
      rcases List.mem_cons.mp h with hxa | hx
      · exact hxa ▸ List.mem_cons_self a (b :: rest)
      · exact List.mem_cons_of_mem a (rustDedup_mem (b :: rest) x hx)

theorem rustDedup_sorted_lt : ∀ l : List String,
    l.Sorted (· ≤ ·) → (rustDedup l).Sorted (· < ·)
  | [], _ => by simp [rustDedup]
  | [a], _ => by simp [rustDedup]
  | a :: b :: rest, h => by
    by_cases hab : a = b
    · simp only [rustDedup, if_pos hab]
      exact rustDedup_sorted_lt (b :: rest) h.of_cons
    · simp only [rustDedup, if_neg hab]
      have htail : (b :: rest).Sorted (· ≤ ·) := h.of_cons
      refine List.Pairwise.cons ?_ (rustDedup_sorted_lt (b :: rest) htail)
      intro x hx
      have hxmem := rustDedup_mem (b :: rest) x hx
      have hab2 : a < b :=
        lt_of_le_of_ne (List.rel_of_sorted_cons h b (List.mem_cons_self b rest)) hab
      rcases List.mem_cons.mp hxmem with hxb | hxr
      · exact hxb ▸ hab2
      · exact lt_of_lt_of_le hab2 (List.rel_of_sorted_cons htail x hxr)

theorem sortDedup_sorted_nodup (deps : List String) :
    (rustDedup (List.insertionSort (fun a b => strLe a b = true) deps)).Sorted (· ≤ ·) ∧
    (rustDedup (List.insertionSort (fun a b => strLe a b = true) deps)).Nodup := by
  haveI : IsTotal String (fun a b => strLe a b = true) := ⟨fun a b => by
    rcases le_total a b with h | h
    · exact Or.inl ((strLe_iff a b).mpr h)
    · exact Or.inr ((strLe_iff b a).mpr h)⟩
  haveI : IsTrans String (fun a b => strLe a b = true) := ⟨fun a b c hab hbc =>
    (strLe_iff a c).mpr (le_trans ((strLe_iff a b).mp hab) ((strLe_iff b c).mp hbc))⟩
  have h1 := List.sorted_insertionSort (fun a b => strLe a b = true) deps
  have h2 : (List.insertionSort (fun a b => strLe a b = true) deps).Sorted (· ≤ ·) :=
    h1.imp (fun h => (strLe_iff _ _).mp h)
  have h3 := rustDedup_sorted_lt _ h2
  exact ⟨h3.imp (fun h => le_of_lt h), h3.imp (fun h => ne_of_lt h)⟩

/-- C5: for any content and any language, the dependencies list is
sorted ascending (in the lexicographic string order that Rust's `sort`
uses) and contains no duplicate entries. -/
theorem c5_dependencies_sorted_nodup (content language : String) :
    (extract_dependencies content language).Sorted (· ≤ ·) ∧
    (extract_dependencies content language).Nodup := by
  simp only [extract_dependencies]
  exact sortDedup_sorted_nodup _

/-! ## Claims C6 and C7: issue detection -/

theorem ne_of_headChar {s t : String} (h : headChar s ≠ headChar t) : s ≠ t :=
  fun he => h (he ▸ rfl)

theorem headChar_mkLongMsg (n : ℕ) : headChar (mkLongMsg n) = some 'L' := rfl

theorem mkLongMsg_ne_unwrapMsg (n : ℕ) : mkLongMsg n ≠ unwrapMsg :=
  ne_of_headChar (by rw [headChar_mkLongMsg]; decide)

theorem mkLongMsg_ne_consoleMsg (n : ℕ) : mkLongMsg n ≠ consoleMsg :=
  ne_of_headChar (by rw [headChar_mkLongMsg]; decide)

theorem mkLongMsg_ne_printMsg (n : ℕ) : mkLongMsg n ≠ printMsg :=
  ne_of_headChar (by rw [headChar_mkLongMsg]; decide)

theorem unwrapIssuesAux_length : ∀ (n : ℕ) (ls : List String),
    (unwrapIssuesAux n ls).length = (ls.filter (fun l => rustContains l ".unwrap()")).length
  | _, [] => rfl
  | n, l :: ls => by
    by_cases h : rustContains l ".unwrap()" = true
    · simp [unwrapIssuesAux, h, List.filter_cons, unwrapIssuesAux_length (n + 1) ls]
    · simp [unwrapIssuesAux, h, List.filter_cons, unwrapIssuesAux_length (n + 1) ls]

theorem unwrapIssuesAux_mem : ∀ (n : ℕ) (ls : List String) (i : ℕ) (l : String),
    ls.get? i = some l → rustContains l ".unwrap()" = true →
    (⟨"warning", unwrapMsg, some (n + i + 1), rustFind l ".unwrap()"⟩ : CodeIssue) ∈
      unwrapIssuesAux n ls
  | _, [], i, l, h, _ => by simp at h
  | n, a :: ls, 0, l, h, hc => by
    rw [List.get?_cons_zero] at h
    injection h with h
    subst h
    simp [unwrapIssuesAux, hc]
  | n, a :: ls, i + 1, l, h, hc => by
    rw [List.get?_cons_succ] at h
    have hm := unwrapIssuesAux_mem (n + 1) ls i l h hc
    rw [show n + 1 + i + 1 = n + (i + 1) + 1 from by omega] at hm
    simp only [unwrapIssuesAux]
    exact List.mem_append_right _ hm

theorem antiPatternIssues_rust (content : String) :
    antiPatternIssues content "rust" = unwrapIssuesAux 0 (rustLines content) := by
  simp [antiPatternIssues]

/-- C6: the line `"let y = x.unwrap();".unwrap();` — modelled here as a
single line holding two `.unwrap()` occurrences (the second at byte
offset 18) — produces exactly one warning Issue, at the column of the
first match only (byte 9): the loop emits one Issue per line containing
the pattern, not one per occurrence. -/
theorem c6_counterexample :
    find_issues "let y = x.unwrap().unwrap();" "rust" =
      [⟨"warning", unwrapMsg, some 1, some 9⟩] ∧
    rustContains (sDrop "let y = x.unwrap().unwrap();" 18) ".unwrap()" = true ∧
    (find_issues "let y = x.unwrap().unwrap();" "rust").length ≠ 2 := by
  refine ⟨by decide, by decide, by decide⟩

/-- C6 (amended): anti-pattern detection emits one warning Issue per
LINE containing at least one `.unwrap()` occurrence (so multiple
occurrences on one line yield a single Issue), referencing that line
with the byte column of the first match on it. -/
theorem c6_amended (content : String) :
    (antiPatternIssues content "rust").length =
      ((rustLines content).filter (fun l => rustContains l ".unwrap()")).length ∧
    ∀ i l, (rustLines content).get? i = some l → rustContains l ".unwrap()" = true →
      (⟨"warning", unwrapMsg, some (i + 1), rustFind l ".unwrap()"⟩ : CodeIssue) ∈
        find_issues content "rust" := by
  constructor
  · rw [antiPatternIssues_rust]
    exact unwrapIssuesAux_length 0 _
  · intro i l h hc
    have hm := unwrapIssuesAux_mem 0 (rustLines content) i l h hc
    rw [show (0 : ℕ) + i + 1 = i + 1 from by omega] at hm
    rw [find_issues, antiPatternIssues_rust]
    exact List.mem_append_right _ hm

/-- Witness for C6 (amended): a one-line Rust file with a single
`.unwrap()` call at byte offset 9. -/
theorem c6_amended_witness :
    (antiPatternIssues "let y = x.unwrap();" "rust").length =
      ((rustLines "let y = x.unwrap();").filter (fun l => rustContains l ".unwrap()")).length ∧
    (⟨"warning", unwrapMsg, some 1, rustFind "let y = x.unwrap();" ".unwrap()"⟩ : CodeIssue) ∈
      find_issues "let y = x.unwrap();" "rust" :=
  ⟨(c6_amended "let y = x.unwrap();").1,
   (c6_amended "let y = x.unwrap();").2 0 "let y = x.unwrap();" (by decide) (by decide)⟩

theorem lineLengthIssuesAux_line : ∀ (n : ℕ) (ls : List String) (is : CodeIssue),
    is ∈ lineLengthIssuesAux n ls → ∃ j, n ≤ j ∧ is.line = some (j + 1)
  | _, [], is, h => by simp [lineLengthIssuesAux] at h
  | n, l :: ls, is, h => by
    by_cases hb : 100 < utf8Len l.toList
    · simp only [lineLengthIssuesAux, if_pos hb, List.singleton_append] at h
      rcases List.mem_cons.mp h with he | ht
      · exact ⟨n, le_refl n, by rw [he]⟩
      · rcases lineLengthIssuesAux_line (n + 1) ls is ht with ⟨j, hj, hline⟩
        exact ⟨j, by omega, hline⟩
    · simp only [lineLengthIssuesAux, if_neg hb, List.nil_append] at h
      rcases lineLengthIssuesAux_line (n + 1) ls is h with ⟨j, hj, hline⟩
      exact ⟨j, by omega, hline⟩

theorem lineLengthIssuesAux_count : ∀ (ls : List String) (n i : ℕ) (l : String),
    ls.get? i = some l → 100 < utf8Len l.toList →
    (lineLengthIssuesAux n ls).count
      (⟨"warning", mkLongMsg (utf8Len l.toList), some (n + i + 1), some 100⟩ : CodeIssue) = 1
  | [], _, i, l, h, _ => by simp at h
  | a :: ls, n, 0, l, h, hb => by
    rw [List.get?_cons_zero] at h
    injection h with h
    subst h
    simp only [lineLengthIssuesAux, if_pos hb, List.singleton_append]
    rw [List.count_cons]
    have hz : (lineLengthIssuesAux (n + 1) ls).count
        (⟨"warning", mkLongMsg (utf8Len a.toList), some (n + 0 + 1), some 100⟩ : CodeIssue)
          = 0 := by
      rw [List.count_eq_zero]
      intro hmem
      rcases lineLengthIssuesAux_line (n + 1) ls _ hmem with ⟨j, hj, hline⟩
      have h4 := Option.some.inj hline
      omega
    rw [hz]
    simp
  | a :: ls, n, i + 1, l, h, hb => by
    rw [List.get?_cons_succ] at h
    have hm := lineLengthIssuesAux_count ls (n + 1) i l h hb
    rw [show n + 1 + i + 1 = n + (i + 1) + 1 from by omega] at hm
    by_cases hba : 100 < utf8Len a.toList
    · simp only [lineLengthIssuesAux, if_pos hba, List.singleton_append]
      rw [List.count_cons, hm]
      have hne : (⟨"warning", mkLongMsg (utf8Len a.toList), some (n + 1), some 100⟩ : CodeIssue) ≠
          ⟨"warning", mkLongMsg (utf8Len l.toList), some (n + (i + 1) + 1), some 100⟩ := by
        intro he
        have h3 : (some (n + 1) : Option ℕ) = some (n + (i + 1) + 1) :=
          congrArg CodeIssue.line he
        have h4 := Option.some.inj h3
        omega
      simp [hne]
    · simp only [lineLengthIssuesAux, if_neg hba, List.nil_append]
      exact hm

theorem mem_antiPattern_message : ∀ (content language : String) (is : CodeIssue),
    is ∈ antiPatternIssues content language →
    is.message = unwrapMsg ∨ is.message = consoleMsg ∨ is.message = printMsg := by
  have hu : ∀ (n : ℕ) (ls : List String) (is : CodeIssue), is ∈ unwrapIssuesAux n ls →
      is.message = unwrapMsg := by
    intro n ls
    induction ls generalizing n with
    | nil => intro is h; simp [unwrapIssuesAux] at h
    | cons a ls ih =>
      intro is h
      simp only [unwrapIssuesAux] at h
      rcases List.mem_append.mp h with h1 | h2
      · rcases List.mem_ite_nil_right.mp h1 with ⟨_, h1⟩
        rcases List.mem_singleton.mp h1 with rfl
        rfl
      · exact ih (n + 1) is h2
  have hc : ∀ (n : ℕ) (ls : List String) (is : CodeIssue), is ∈ consoleIssuesAux n ls →
      is.message = consoleMsg := by
    intro n ls
    induction ls generalizing n with
    | nil => intro is h; simp [consoleIssuesAux] at h
    | cons a ls ih =>
      intro is h
      simp only [consoleIssuesAux] at h
      rcases List.mem_append.mp h with h1 | h2
      · rcases List.mem_ite_nil_right.mp h1 with ⟨_, h1⟩
        rcases List.mem_singleton.mp h1 with rfl
        rfl
      · exact ih (n + 1) is h2
  have hp : ∀ (n : ℕ) (ls : List String) (is : CodeIssue), is ∈ printIssuesAux n ls →
      is.message = printMsg := by
    intro n ls
    induction ls generalizing n with
    | nil => intro is h; simp [printIssuesAux] at h
    | cons a ls ih =>
      intro is h
      simp only [printIssuesAux] at h
      rcases List.mem_append.mp h with h1 | h2
      · rcases List.mem_ite_nil_right.mp h1 with ⟨_, h1⟩
        rcases List.mem_singleton.mp h1 with rfl
        rfl
      · exact ih (n + 1) is h2
  intro content language is h
  simp only [antiPatternIssues] at h
  split_ifs at h with h1 h2 h3
  · exact Or.inl (hu 0 _ is h)
  · exact Or.inr (Or.inl (hc 0 _ is h))
  · exact Or.inr (Or.inr (hp 0 _ is h))
  · simp at h

set_option maxRecDepth 8000 in
/-- C7: a single line of 101 two-byte characters (202 UTF-8 bytes, 101
characters) produces one warning whose message reports 202 — the
line's byte length — not the character count 101: `len()` counts
bytes, so "N characters" in the message is really a byte count and the
100 threshold is a byte threshold. -/
theorem c7_counterexample :
    find_issues (String.mk (List.replicate 101 'é')) "rust" =
      [⟨"warning", mkLongMsg 202, some 1, some 100⟩] ∧
    (String.mk (List.replicate 101 'é')).toList.length = 101 ∧
    mkLongMsg 202 ≠ mkLongMsg 101 := by
  refine ⟨by decide, by decide, by decide⟩

/-- C7 (amended): every line whose UTF-8 BYTE length exceeds 100
(which equals the character count only for ASCII lines) produces
exactly one warning Issue "Line too long (N characters)" with N that
byte length, at column 100 of that line, whatever the language. -/
theorem c7_amended (content language : String) (i : ℕ) (l : String)
    (h : (rustLines content).get? i = some l) (hb : 100 < utf8Len l.toList) :
    (find_issues content language).count
      (⟨"warning", mkLongMsg (utf8Len l.toList), some (i + 1), some 100⟩ : CodeIssue) = 1 := by
  rw [find_issues, List.count_append]
  have h1 := lineLengthIssuesAux_count (rustLines content) 0 i l h hb
  rw [show (0 : ℕ) + i + 1 = i + 1 from by omega] at h1
  rw [lineLengthIssues, h1]
  have h2 : (antiPatternIssues content language).count
      (⟨"warning", mkLongMsg (utf8Len l.toList), some (i + 1), some 100⟩ : CodeIssue) = 0 := by
    rw [List.count_eq_zero]
    intro hmem
    rcases mem_antiPattern_message content language _ hmem with hm | hm | hm
    · exact mkLongMsg_ne_unwrapMsg _ hm
    · exact mkLongMsg_ne_consoleMsg _ hm
    · exact mkLongMsg_ne_printMsg _ hm
  rw [h2]

set_option maxRecDepth 8000 in
/-- Witness for C7 (amended): the 150-ASCII-character line, whose byte
length and character count agree, yields exactly one warning with
message "Line too long (150 characters)" at column 100. -/
theorem c7_amended_witness :
    (find_issues (String.mk (List.replicate 150 'a')) "rust").count
      (⟨"warning", mkLongMsg 150, some 1, some 100⟩ : CodeIssue) = 1 ∧
    rustContains (mkLongMsg 150) "150" = true := by
  refine ⟨?_, by decide⟩
  have h := c7_amended (String.mk (List.replicate 150 'a')) "rust" 0
    (String.mk (List.replicate 150 'a')) (by decide) (by decide)
  simpa using h

/-! ## Claim C8 -/

/-- C8: `detect_language(".rs")` returns "unknown", not "rust": the
path `".rs"` is a file name beginning with its only `.`, which under
the platform path rules has no extension at all; the subsequent analyze
call fails with the UnsupportedLanguage error. -/
theorem c8_counterexample :
    detect_language ".rs" = "unknown" ∧ ("unknown" : String) ≠ "rust" ∧
    analyze_file flnModel (fun l _ => some (emptyTree l)) ".rs" "" none =
      .error "Unsupported language: unknown" :=
  ⟨by decide, by decide, rfl⟩

/-- C8 (amended): with no hint the language comes totally from the
file extension (`rs`→rust, `js`/`mjs`→javascript, `ts`→typescript,
`py`→python), and EVERY path outside that mapping — a path with no
extension at all, including extension-less dotfile names such as
`".rs"` itself, or a path whose extension is none of the five mapped
strings — yields "unknown", which makes analyze fail with the
UnsupportedLanguage error rather than silently guessing a language;
`detect_language("main.rs")` deterministically returns "rust". -/
theorem c8_amended :
    (∀ p, pathExtension p = some "rs" → detect_language p = "rust") ∧
    (∀ p, pathExtension p = some "js" ∨ pathExtension p = some "mjs" →
      detect_language p = "javascript") ∧
    (∀ p, pathExtension p = some "ts" → detect_language p = "typescript") ∧
    (∀ p, pathExtension p = some "py" → detect_language p = "python") ∧
    (∀ p, pathExtension p = none → detect_language p = "unknown") ∧
    (∀ p e, pathExtension p = some e →
      e ≠ "rs" → e ≠ "js" → e ≠ "mjs" → e ≠ "ts" → e ≠ "py" →
      detect_language p = "unknown") ∧
    (∀ p, detect_language p = "rust" ∨ detect_language p = "javascript" ∨
      detect_language p = "typescript" ∨ detect_language p = "python" ∨
      detect_language p = "unknown") ∧
    (∀ (fln : ℕ → F64) (parse : String → String → Option STree) (p content : String),
      detect_language p = "unknown" →
      analyze_file fln parse p content none = .error "Unsupported language: unknown") ∧
    (∀ (fln : ℕ → F64) (parse : String → String → Option STree) (p content e : String),
      pathExtension p = some e →
      e ≠ "rs" → e ≠ "js" → e ≠ "mjs" → e ≠ "ts" → e ≠ "py" →
      analyze_file fln parse p content none = .error "Unsupported language: unknown") ∧
    detect_language "main.rs" = "rust" := by
  have hunk : ∀ p e, pathExtension p = some e →
      e ≠ "rs" → e ≠ "js" → e ≠ "mjs" → e ≠ "ts" → e ≠ "py" →
      detect_language p = "unknown" := by
    intro p e h h1 h2 h3 h4 h5
    simp [detect_language, h, h1, h2, h3, h4, h5]
  have herr : ∀ (fln : ℕ → F64) (parse : String → String → Option STree) (p content : String),
      detect_language p = "unknown" →
      analyze_file fln parse p content none = .error "Unsupported language: unknown" := by
    intro fln parse p content h
    simp only [analyze_file, h]
    rfl
  refine ⟨?_, ?_, ?_, ?_, ?_, hunk, ?_, herr, ?_, by decide⟩
  · intro p h
    simp +decide [detect_language, h]
  · intro p h
    rcases h with h | h <;> simp +decide [detect_language, h]
  · intro p h
    simp +decide [detect_language, h]
  · intro p h
    simp +decide [detect_language, h]
  · intro p h
    simp [detect_language, h]
  · intro p
    simp only [detect_language]
    split
    · split_ifs <;> simp
    · simp
  · intro fln parse p content e h h1 h2 h3 h4 h5
    exact herr fln parse p content (hunk p e h h1 h2 h3 h4 h5)

/-- Witness for C8 (amended): a `.mjs` path maps to javascript; the
unmapped extension `xyz` maps to "unknown" and makes analyze fail; an
extension-less `README` maps to "unknown"; a `.txt` path makes analyze
fail with the UnsupportedLanguage error. -/
theorem c8_amended_witness :
    detect_language "lib.mjs" = "javascript" ∧
    detect_language "a.xyz" = "unknown" ∧
    analyze_file flnModel (fun l _ => some (emptyTree l)) "a.xyz" "" none =
      .error "Unsupported language: unknown" ∧
    detect_language "README" = "unknown" ∧
    analyze_file flnModel (fun l _ => some (emptyTree l)) "notes.txt" "" none =
      .error "Unsupported language: unknown" :=
  ⟨c8_amended.2.1 "lib.mjs" (Or.inr (by decide)),
   c8_amended.2.2.2.2.2.1 "a.xyz" "xyz" (by decide) (by decide) (by decide) (by decide)
     (by decide) (by decide),
   c8_amended.2.2.2.2.2.2.2.2.1 flnModel (fun l _ => some (emptyTree l)) "a.xyz" "" "xyz"
     (by decide) (by decide) (by decide) (by decide) (by decide) (by decide),
   c8_amended.2.2.2.2.1 "README" (by decide),
   c8_amended.2.2.2.2.2.2.2.1 flnModel (fun l _ => some (emptyTree l)) "notes.txt" ""
     (by decide)⟩

/-! ## Claim C9 -/

theorem rustDepOfLine_spec (line dep : String) (h : rustDepOfLine line = some dep) :
    rustStarts dep "crate" = false ∧ rustStarts dep "super" = false ∧
    rustStarts dep "self" = false := by
  simp only [rustDepOfLine] at h
  split_ifs at h with h1 h2
  injection h with h
  subst h
  simp only [Bool.or_eq_true, not_or, Bool.not_eq_true] at h2
  exact ⟨h2.1.1, h2.1.2, h2.2⟩

theorem jsDepOfLine_spec (line dep : String) (h : jsDepOfLine line = some dep) :
    rustStarts dep "." = false := by
  simp only [jsDepOfLine] at h
  split_ifs at h with h1 h2 <;>
    (repeat' split at h) <;>
    first
      | (injection h with h
         subst h
         simp_all)
      | injection h

/-- C9: a Python relative import DOES contribute a dependency entry:
the code takes the first whitespace token after `from ` with no
relative/self exclusion for Python, so `from . import x` yields the
entry "." (a non-empty dependency list where the claim promises an
empty one). -/
theorem c9_counterexample :
    extract_dependencies "from . import x" "python" = ["."] ∧
    extract_dependencies "from . import x" "python" ≠ [] :=
  ⟨by decide, by decide⟩

/-- C9 (amended): extraction captures the leading module identifier
and excludes relative/self references for Rust (`crate`/`super`/`self`
prefixes) and JavaScript/TypeScript (leading-dot modules), but NOT for
Python, where a `from .`-style line contributes its leading dot token;
`import os` plus `from sys import path` still yields ["os", "sys"]. -/
theorem c9_amended :
    extract_dependencies "import os\nfrom sys import path" "python" = ["os", "sys"] ∧
    extract_dependencies "from . import x" "python" = ["."] ∧
    (∀ content dep, dep ∈ extract_dependencies content "rust" →
      rustStarts dep "crate" = false ∧ rustStarts dep "super" = false ∧
      rustStarts dep "self" = false) ∧
    (∀ content dep, dep ∈ extract_dependencies content "javascript" →
      rustStarts dep "." = false) ∧
    (∀ content dep, dep ∈ extract_dependencies content "typescript" →
      rustStarts dep "." = false) := by
  refine ⟨by decide, by decide, ?_, ?_, ?_⟩
  · intro content dep h
    have h1 := rustDedup_mem _ _ (by simpa +decide [extract_dependencies] using h)
    rw [List.mem_insertionSort] at h1
    rcases List.mem_filterMap.mp h1 with ⟨line, _, hline⟩
    exact rustDepOfLine_spec line dep hline
  · intro content dep h
    have h1 := rustDedup_mem _ _ (by simpa +decide [extract_dependencies] using h)
    rw [List.mem_insertionSort] at h1
    rcases List.mem_filterMap.mp h1 with ⟨line, _, hline⟩
    exact jsDepOfLine_spec line dep hline
  · intro content dep h
    have h1 := rustDedup_mem _ _ (by simpa +decide [extract_dependencies] using h)
    rw [List.mem_insertionSort] at h1
    rcases List.mem_filterMap.mp h1 with ⟨line, _, hline⟩
    exact jsDepOfLine_spec line dep hline

/-- Witness for C9 (amended): the Rust `use std::fmt;` dependency
"std" carries none of the excluded prefixes, the JavaScript
`import b from 'fs'` dependency "fs" does not start with a dot, and
neither does the TypeScript `import a from 'react'` dependency
"react". -/
theorem c9_amended_witness :
    extract_dependencies "import os\nfrom sys import path" "python" = ["os", "sys"] ∧
    rustStarts "std" "crate" = false ∧ rustStarts "fs" "." = false ∧
    rustStarts "react" "." = false :=
  ⟨c9_amended.1,
   (c9_amended.2.2.1 "use std::fmt;" "std" (by decide)).1,
   c9_amended.2.2.2.1 "import b from 'fs'" "fs" (by decide),
   c9_amended.2.2.2.2 "import a from 'react'" "react" (by decide)⟩

/-! ## Claim C10 -/

/-- C10: in every successful analysis result the two complexity fields
agree: complexity_score is a whole number n ≥ 1 (the weighted traversal
only ever adds integer weights to the base 1) and the metrics'
cyclomatic_complexity — the same traversal truncated with `as usize` —
equals that same n. -/
theorem c10_complexity_fields_agree (fln : ℕ → F64) (parse : String → String → Option STree)
    (file_path content : String) (language : Option String) (r : CodeAnalysisResult)
    (hok : analyze_file fln parse file_path content language = .ok r) :
    ∃ n : ℕ, r.complexity_score = (n : ℚ) ∧ 1 ≤ n ∧ r.metrics.cyclomatic_complexity = n := by
  simp only [analyze_file] at hok
  generalize (match language with | some l => l | none => detect_language file_path) = d at hok
  split_ifs at hok with hp
  split at hok
  · exact absurd hok (by simp)
  · rename_i tree heq
    injection hok with hok
    subst hok
    rcases complexityNode_natCast d tree with ⟨m, hm⟩
    have hscore : calculate_complexity tree d = ((m + 1 : ℕ) : ℚ) := by
      rw [calculate_complexity, hm]
      push_cast
      ring
    refine ⟨m + 1, hscore, by omega, ?_⟩
    show (calculate_complexity tree d).floor.toNat = m + 1
    rw [hscore]
    rw [show Rat.floor ((m + 1 : ℕ) : ℚ) = ⌊((m + 1 : ℕ) : ℚ)⌋ from rfl]
    rw [Int.floor_natCast]
    exact Int.toNat_natCast (m + 1)

/-- Witness for C10: the empty `.rs` analysis, whose complexity_score
is the whole number 1 and whose cyclomatic_complexity is 1. -/
theorem c10_complexity_fields_agree_witness :
    ∃ n : ℕ, emptyRustResult.complexity_score = (n : ℚ) ∧ 1 ≤ n ∧
      emptyRustResult.metrics.cyclomatic_complexity = n :=
  c10_complexity_fields_agree flnModel (fun l _ => some (emptyTree l)) "main.rs" "" (some "rust")
    emptyRustResult (by
      rw [analyze_empty_eq flnModel _ "rust" (by decide) rfl "main.rs"]
      simp [emptyRustResult, maintainability_at_zero flnModel rfl 1])

end CodeAnalyzer
